import Mathlib

/-!
Verification of the weather-forecast resolution layer of the
`back-end-trail-cast` repository (`src/controllers/locations.js`).

The development shallowly embeds, from the JavaScript source:
  * the value model needed by the resolver inputs (JS numbers with `NaN`
    and infinities over exact rationals, JS values with `undefined` / `null`
    / strings / numbers, `Number(...)` conversion on the decimal grammar);
  * `roundCoord` (`Number(v).toFixed(4)`) and the coordinate cache key;
  * the in-memory TTL caches (`cacheGet` / `cacheSet`);
  * `getForecastForLatLon` (validation, points stage, forecast stage),
    instrumented with upstream call counters;
  * `mapWithConcurrency` as a small-step worker-pool transition system
    (claims and completions are the atomic steps of the JS event loop);
  * the `POST /weather/batch` worker and the route's pre-checks.

Machine floats are modelled by exact rationals: every claim under study
concerns values far below the magnitudes where double rounding at four
decimal places could differ from rational rounding.
-/

/-- A JavaScript number: `NaN`, the two infinities, or a finite value
(modelled as an exact rational). -/
inductive JSNum : Type where
  | nan : JSNum
  | inf : JSNum
  | negInf : JSNum
  | fin (q : ℚ) : JSNum
deriving DecidableEq

/-- A JavaScript value as it can reach the resolver inputs: `undefined`,
`null`, a string, or a number. -/
inductive JSVal : Type where
  | undef : JSVal
  | null : JSVal
  | str (s : String) : JSVal
  | num (n : JSNum) : JSVal
deriving DecidableEq

namespace JSNum

/-- The `Number.isNaN` test on the modelled number. -/
def isNaN : JSNum → Bool
  | .nan => true
  | _ => false

end JSNum

/-- Split the leading decimal digits off a character list. -/
def takeDigits : List Char → List Char × List Char
  | [] => ([], [])
  | c :: cs =>
      if c.isDigit then
        let (d, r) := takeDigits cs
        (c :: d, r)
      else ([], c :: cs)

/-- Numeric value of a list of decimal digits. -/
def digitsVal : List Char → ℕ
  | [] => 0
  | c :: cs => (c.toNat - '0'.toNat) * 10 ^ cs.length + digitsVal cs

/-- Parse an optional exponent part (`e`/`E`, optional sign, digits).
Returns `none` when the remainder is not a valid (possibly empty) exponent. -/
def parseExponent : List Char → Option ℤ
  | [] => some 0
  | e :: rest =>
      if e = 'e' ∨ e = 'E' then
        match rest with
        | '+' :: ds => if ds ≠ [] ∧ ds.all Char.isDigit then some (digitsVal ds) else none
        | '-' :: ds => if ds ≠ [] ∧ ds.all Char.isDigit then some (-(digitsVal ds : ℤ)) else none
        | ds => if ds ≠ [] ∧ ds.all Char.isDigit then some (digitsVal ds) else none
      else none

/-- Parse an unsigned decimal mantissa with optional fraction and exponent.
Returns the exact rational value, or `none` when the text is not a number. -/
def parseDecimal (cs : List Char) : Option ℚ :=
  let (ip, r1) := takeDigits cs
  match r1 with
  | '.' :: r2 =>
      let (fp, r3) := takeDigits r2
      if ip = [] ∧ fp = [] then none
      else
        match parseExponent r3 with
        | some e => some ((digitsVal (ip ++ fp) : ℚ) * (10 : ℚ) ^ (e - fp.length))
        | none => none
  | _ =>
      if ip = [] then none
      else
        match parseExponent r1 with
        | some e => some ((digitsVal ip : ℚ) * (10 : ℚ) ^ e)
        | none => none

/-- ECMAScript string whitespace as relevant to `ToNumber` trimming
(space, tab, line feed, vertical tab, form feed, carriage return,
no-break space; exotic Unicode space separators are outside the inputs
under study). -/
def jsWhitespace (c : Char) : Bool :=
  c = ' ' ∨ c = '\t' ∨ c = '\n' ∨ c = Char.ofNat 11 ∨ c = Char.ofNat 12 ∨
    c = '\r' ∨ c = Char.ofNat 160

/-- Strip leading and trailing whitespace from a character list. -/
def trimChars (cs : List Char) : List Char :=
  ((cs.dropWhile jsWhitespace).reverse.dropWhile jsWhitespace).reverse

/-- ECMAScript `ToNumber` on a string, on the grammar the resolver inputs
use: optional whitespace, optional sign, then `Infinity` or a decimal
literal with optional fraction and exponent. Other numeric forms of the
full grammar (hex, octal, binary literals) are outside the coordinate
domain and map to `NaN` here. An all-whitespace string converts to `0`. -/
def jsStringToNumber (s : String) : JSNum :=
  match trimChars s.data with
  | [] => .fin 0
  | '+' :: rest =>
      if rest = "Infinity".data then .inf
      else match parseDecimal rest with
        | some q => .fin q
        | none => .nan
  | '-' :: rest =>
      if rest = "Infinity".data then .negInf
      else match parseDecimal rest with
        | some q => .fin (-q)
        | none => .nan
  | cs =>
      if cs = "Infinity".data then .inf
      else match parseDecimal cs with
        | some q => .fin q
        | none => .nan

/-- JavaScript `Number(v)` on the modelled values. -/
def jsToNumber : JSVal → JSNum
  | .undef => .nan
  | .null => .fin 0
  | .num n => n
  | .str s => jsStringToNumber s

/-- Source `toNum` (locations.js line 30):
`(v === "" || v == null ? null : Number(v))`. `v == null` is loose
equality, so it catches both `null` and `undefined`. -/
def toNum : JSVal → Option JSNum
  | .str "" => none
  | .undef => none
  | .null => none
  | v => some (jsToNumber v)

/-- The validation step of `getForecastForLatLon` (locations.js lines 59-65):
returns the parsed pair, or `none` when the source throws the 400 error
(`latNum == null || lonNum == null || Number.isNaN latNum || Number.isNaN lonNum`). -/
def validateLatLon (lat lon : JSVal) : Option (JSNum × JSNum) :=
  match toNum lat, toNum lon with
  | some a, some b => if a.isNaN || b.isNaN then none else some (a, b)
  | _, _ => none

/-- Render a nonnegative scaled integer `m` (the rounded value times
`10^4`) as a fixed-point decimal string with exactly four fractional
digits, as `toFixed` does after rounding. -/
def fixedDigits (m : ℕ) : String :=
  let frac := Nat.repr (m % 10000)
  Nat.repr (m / 10000) ++ "." ++
    String.mk (List.replicate (4 - frac.length) '0') ++ frac

/-- The integer `n` chosen by ECMAScript `toFixed(4)` for a nonnegative
argument: `n / 10^4 - x` as close to zero as possible, ties resolved to
the larger `n` (computed from the floor and the fractional part). -/
def jsFixedRound (x : ℚ) : ℤ :=
  let k := ⌊x * 10000⌋
  if (1 : ℚ) / 2 ≤ x * 10000 - k then k + 1 else k

/-- ECMAScript `toFixed(4)` on a finite value, for magnitudes below
`10^21` (beyond that bound the standard switches to exponential
`ToString`, far outside the coordinate domain): extract the sign, round
the magnitude, render with four decimals. -/
def jsToFixed4 (q : ℚ) : String :=
  if q < 0 then "-" ++ fixedDigits (jsFixedRound (-q)).toNat
  else fixedDigits (jsFixedRound q).toNat

/-- Source `roundCoord` (locations.js line 29): `Number(v).toFixed(4)`,
applied to an already-converted number. -/
def roundCoord : JSNum → String
  | .nan => "NaN"
  | .inf => "Infinity"
  | .negInf => "-Infinity"
  | .fin q => jsToFixed4 q

/-- The coordinate cache key of locations.js line 67. -/
def coordKeyOf (a b : JSNum) : String :=
  roundCoord a ++ "," ++ roundCoord b

/-- Modelled from the spec: rounding "half-away-from-zero at 4 decimal
places" as a signed scaled integer. -/
def specRound4 (q : ℚ) : ℤ :=
  if q < 0 then -⌊-q * 10000 + 1 / 2⌋ else ⌊q * 10000 + 1 / 2⌋

/-- Modelled from the spec: the string `<q rounded to 4 decimals>`, the
half-away-from-zero rounded value rendered with four fractional digits
(negative inputs rendered with their sign, as fixed-point rendering does). -/
def specFixed4 (q : ℚ) : String :=
  (if q < 0 then "-" else "") ++ fixedDigits (specRound4 q).natAbs

/-! ## TTL caches (locations.js lines 11-27)

The JS `Map`s are modelled as association lists; `Map.get` / `Map.set` /
`Map.delete` become lookup, overwrite-insert and erase. `cacheGet`
returns the updated map alongside the value since the source mutates the
map (lazy expiry deletes the entry). -/

/-- A cache entry: `{ value, expiresAt }` (times in milliseconds). -/
structure CEntry (α : Type) : Type where
  value : α
  expiresAt : ℤ
deriving DecidableEq

/-- A TTL cache instance: association list keyed by strings. -/
abbrev CacheMap (α : Type) : Type := List (String × CEntry α)

/-- Lookup, as `Map.get`. -/
def cLookup {α : Type} : CacheMap α → String → Option (CEntry α)
  | [], _ => none
  | (k, e) :: t, key => if k = key then some e else cLookup t key

/-- Removal, as `Map.delete`. -/
def cErase {α : Type} : CacheMap α → String → CacheMap α
  | [], _ => []
  | (k, e) :: t, key => if k = key then cErase t key else (k, e) :: cErase t key

/-- Source `cacheGet` (lines 16-24): absent gives `null`; an entry with
`expiresAt <= now` is deleted and gives `null`; otherwise the value. -/
def cacheGet {α : Type} (m : CacheMap α) (key : String) (now : ℤ) :
    Option α × CacheMap α :=
  match cLookup m key with
  | none => (none, m)
  | some e => if e.expiresAt ≤ now then (none, cErase m key) else (some e.value, m)

/-- Source `cacheSet` (lines 25-27): store with `expiresAt = now + ttl`. -/
def cacheSet {α : Type} (m : CacheMap α) (key : String) (v : α) (ttl now : ℤ) :
    CacheMap α :=
  (key, ⟨v, now + ttl⟩) :: cErase m key

/-- Source `TTL.points` (line 34): seven days in milliseconds. -/
def TTL.points : ℤ := 7 * 24 * 60 * 60 * 1000

/-- Source `TTL.forecast` (line 35): ten minutes in milliseconds. -/
def TTL.forecast : ℤ := 10 * 60 * 1000

/-! ## Upstream client and forecast resolver (lines 46-96) -/

/-- A thrown JS `Error` as the routes use it: `message` and `status`
(the `details` payload is never inspected by the modelled claims). -/
structure JSError : Type where
  message : String
  status : ℕ
deriving DecidableEq

/-- The upstream weather provider, abstracted at the two `fetchJson`
call sites: `fetchPoints` yields the `properties.forecast` field of the
points response (`none` models a success response missing the field) and
`fetchForecast` yields the `properties.periods` field. Forecast periods
are pass-through values of an arbitrary type `π`. -/
structure Upstream (π : Type) : Type where
  fetchPoints : JSNum → JSNum → Except JSError (Option String)
  fetchForecast : String → Except JSError (Option (List π))

/-- The two module-level cache instances the resolver uses. -/
structure Caches (π : Type) : Type where
  points : CacheMap String
  forecast : CacheMap (List π)
deriving DecidableEq

/-- The outcome of one resolver invocation: the result or thrown error,
the caches after the call, and how many upstream calls of each kind the
invocation made. -/
structure ResolveOut (π : Type) : Type where
  res : Except JSError (List π)
  caches : Caches π
  pointsCalls : ℕ
  forecastCalls : ℕ

/-- The points fetch of the miss branch (lines 72-84): call upstream,
fail with 502 when the forecast URL field is falsy (missing or empty
string), otherwise cache the URL under the long TTL. Returns the points
cache afterwards, the upstream-call count, and the URL or error. -/
def pointsFetch {π : Type} (u : Upstream π) (a b : JSNum) (key : String)
    (now : ℤ) (pc : CacheMap String) : CacheMap String × ℕ × Except JSError String :=
  match u.fetchPoints a b with
  | .error e => (pc, 1, .error e)
  | .ok fopt =>
      match fopt with
      | none => (pc, 1, .error ⟨"NWS points response missing forecast URL", 502⟩)
      | some url =>
          if url = "" then (pc, 1, .error ⟨"NWS points response missing forecast URL", 502⟩)
          else (cacheSet pc key url TTL.points now, 1, .ok url)

/-- Stage one of the resolver (lines 70-85): consult the points cache;
`if (!forecastUrl)` treats a cached empty string as a miss (JS
falsiness); on miss run `pointsFetch`. -/
def pointsStage {π : Type} (u : Upstream π) (a b : JSNum) (key : String)
    (now : ℤ) (pc : CacheMap String) : CacheMap String × ℕ × Except JSError String :=
  match cacheGet pc key now with
  | (some url, pc1) =>
      if url = "" then pointsFetch u a b key now pc1 else (pc1, 0, .ok url)
  | (none, pc1) => pointsFetch u a b key now pc1

/-- Stage two of the resolver (lines 88-93): consult the forecast cache
(stored values are arrays, which are always truthy); on miss call
upstream, defaulting an absent periods field to the empty array, and
cache under the short TTL. -/
def forecastStage {π : Type} (u : Upstream π) (url : String) (now : ℤ)
    (fc : CacheMap (List π)) : CacheMap (List π) × ℕ × Except JSError (List π) :=
  match cacheGet fc url now with
  | (some periods, fc1) => (fc1, 0, .ok periods)
  | (none, fc1) =>
      match u.fetchForecast url with
      | .error e => (fc1, 1, .error e)
      | .ok popt =>
          let periods := popt.getD []
          (cacheSet fc1 url periods TTL.forecast now, 1, .ok periods)

/-- Source `getForecastForLatLon` (lines 58-96): validate, derive the
coordinate key, resolve the forecast URL through the points cache, then
the periods through the forecast cache. -/
def getForecastForLatLon {π : Type} (u : Upstream π) (lat lon : JSVal)
    (now : ℤ) (c : Caches π) : ResolveOut π :=
  match validateLatLon lat lon with
  | none => ⟨.error ⟨"lat and lon must be valid numbers", 400⟩, c, 0, 0⟩
  | some (latNum, lonNum) =>
      let key := coordKeyOf latNum lonNum
      match pointsStage u latNum lonNum key now c.points with
      | (pc2, pcalls, .error e) => ⟨.error e, ⟨pc2, c.forecast⟩, pcalls, 0⟩
      | (pc2, pcalls, .ok url) =>
          match forecastStage u url now c.forecast with
          | (fc2, fcalls, r) => ⟨r, ⟨pc2, fc2⟩, pcalls, fcalls⟩

/-! ## `mapWithConcurrency` (locations.js lines 98-110)

The source spawns `min(limit, items.length)` async runners over a shared
cursor `idx` and a shared `results` array. On the single-threaded JS
event loop the atomic steps are: `const i = idx++` together with the
bound check (no `await` in between), and the completion of
`await worker(items[i], i)` together with the write `results[i] = ...`
and the loop continuation. The model is a small-step transition system
over those two step kinds, with the per-item computation abstracted as a
function `f` of the item and its index (the ordering contract is
independent of what the worker computes). `procs` records each index as
its claim completes, so exactly-once processing is a provable statement
about the trace. -/

/-- The control point of one runner. -/
inductive WStatus : Type where
  | claiming : WStatus
  | awaiting (i : ℕ) : WStatus
  | done : WStatus
deriving DecidableEq

/-- The shared state of one `mapWithConcurrency` execution. -/
structure PoolState (ρ : Type) : Type where
  idx : ℕ
  results : List (Option ρ)
  workers : List WStatus
  procs : List ℕ
deriving DecidableEq

/-- The state right after line 101 sets up the runner array: cursor at
zero, no result written, `min limit items.length` runners about to claim. -/
def initPool {α ρ : Type} (items : List α) (limit : ℕ) : PoolState ρ :=
  ⟨0, List.replicate items.length none, List.replicate (min limit items.length) .claiming, []⟩

/-- One atomic step of the event loop inside `mapWithConcurrency`. -/
inductive PoolStep {α ρ : Type} (items : List α) (f : α → ℕ → ρ) :
    PoolState ρ → PoolState ρ → Prop where
  | claimHit (s : PoolState ρ) (w : ℕ)
      (hw : s.workers.get? w = some .claiming) (hi : s.idx < items.length) :
      PoolStep items f s
        ⟨s.idx + 1, s.results, s.workers.set w (.awaiting s.idx), s.procs⟩
  | claimMiss (s : PoolState ρ) (w : ℕ)
      (hw : s.workers.get? w = some .claiming) (hi : items.length ≤ s.idx) :
      PoolStep items f s ⟨s.idx + 1, s.results, s.workers.set w .done, s.procs⟩
  | fire (s : PoolState ρ) (w i : ℕ) (hi : i < items.length)
      (hw : s.workers.get? w = some (.awaiting i)) :
      PoolStep items f s
        ⟨s.idx, s.results.set i (some (f (items.get ⟨i, hi⟩) i)),
          s.workers.set w .claiming, s.procs ++ [i]⟩

/-- Executions of the pool: reflexive-transitive closure of the steps. -/
abbrev PoolReach {α ρ : Type} (items : List α) (f : α → ℕ → ρ) :
    PoolState ρ → PoolState ρ → Prop :=
  Relation.ReflTransGen (PoolStep items f)

/-- The state where `Promise.all(runners)` has resolved: every runner has exited its loop. -/
def AllDone {ρ : Type} (s : PoolState ρ) : Prop :=
  ∀ st ∈ s.workers, st = WStatus.done

instance {ρ : Type} (s : PoolState ρ) : Decidable (AllDone s) :=
  List.decidableBAll _ s.workers

/-- The execution invariant of the worker pool: results sized like the
input; every in-flight claim is in range, below the cursor, unwritten,
and held by a unique worker; every index below the cursor is written
with its own item's result or in flight; indices at or above the cursor
are unwritten; the processed-trace holds exactly the written indices,
without duplicates; and a finished worker has seen the cursor past the
end. -/
structure PoolInv {α ρ : Type} (items : List α) (f : α → ℕ → ρ)
    (s : PoolState ρ) : Prop where
  resLen : s.results.length = items.length
  widx : ∀ w i, s.workers.get? w = some (.awaiting i) → i < items.length ∧ i < s.idx
  wdisj : ∀ w w' i, s.workers.get? w = some (.awaiting i) →
      s.workers.get? w' = some (.awaiting i) → w = w'
  wres : ∀ w i, s.workers.get? w = some (.awaiting i) → s.results.get? i = some none
  covered : ∀ i (h : i < items.length), i < s.idx →
      s.results.get? i = some (some (f (items.get ⟨i, h⟩) i)) ∨
      ∃ w, s.workers.get? w = some (.awaiting i)
  fresh : ∀ i, s.idx ≤ i → i < items.length → s.results.get? i = some none
  procsMem : ∀ i, i ∈ s.procs ↔ i < items.length ∧ s.results.get? i ≠ some none
  procsNodup : s.procs.Nodup
  doneIdx : ∀ w, s.workers.get? w = some .done → items.length < s.idx

/-! ## The `POST /weather/batch` route (locations.js lines 192-230) -/

/-- One element of the `locations` array as the worker reads it: each of
the five optional fields, with `undef` for an absent field (a non-object
element reads as all fields `undef`, which is what `loc?.lat` yields). -/
structure RawLoc : Type where
  lat : JSVal
  latitude : JSVal
  lon : JSVal
  longitude : JSVal
  name : JSVal
deriving DecidableEq

/-- The JS nullish-coalescing operator `a ?? b`. -/
def jsNullish (a b : JSVal) : JSVal :=
  match a with
  | .undef => b
  | .null => b
  | _ => a

/-- Loose `v != null` is false exactly on `null` and `undefined`. -/
def jsIsNullish : JSVal → Bool
  | .undef => true
  | .null => true
  | _ => false

/-- One entry of the batch response's `results` array. A successful item
has `error = none` (the source object simply lacks the field). -/
structure BatchResult (π : Type) : Type where
  name : JSVal
  lat : Option JSNum
  lon : Option JSNum
  forecast : Option (List π)
  error : Option String
deriving DecidableEq

/-- The extracted latitude input of one batch item: `loc?.lat ?? loc?.latitude`. -/
def locLat (loc : RawLoc) : JSVal := jsNullish loc.lat loc.latitude

/-- The extracted longitude input of one batch item: `loc?.lon ?? loc?.longitude`. -/
def locLon (loc : RawLoc) : JSVal := jsNullish loc.lon loc.longitude

/-- The batch worker body (lines 202-224), with the resolver call
abstracted as `r` applied to the extracted lat/lon: on success a full
result record, on a caught error a record with `forecast: null` and the
error message, with lat/lon echoed as numbers when non-nullish. -/
def batchWorker {π : Type} (r : JSVal → JSVal → Except JSError (List π))
    (loc : RawLoc) : BatchResult π :=
  let lat := locLat loc
  let lon := locLon loc
  let name := jsNullish loc.name .null
  match r lat lon with
  | .ok forecast => ⟨name, some (jsToNumber lat), some (jsToNumber lon), some forecast, none⟩
  | .error e =>
      ⟨name, if jsIsNullish lat then none else some (jsToNumber lat),
        if jsIsNullish lon then none else some (jsToNumber lon), none, some e.message⟩

/-- The route's view of `req.body?.locations` after the `Array.isArray`
test (line 194): an array of items, or any non-array value. -/
inductive BodyLocs : Type where
  | nonArray : BodyLocs
  | array (l : List RawLoc) : BodyLocs

/-- A batch response body: a `results` array or an `err` message. -/
inductive BatchRespBody (π : Type) : Type where
  | results (rs : List (BatchResult π)) : BatchRespBody π
  | err (msg : String) : BatchRespBody π
deriving DecidableEq

/-- What the route decides before any worker exists: answer immediately
with a status and body, or hand a list of items to the executor. -/
inductive BatchPre (π : Type) : Type where
  | respond (status : ℕ) (body : BatchRespBody π) : BatchPre π
  | spawn (locs : List RawLoc) : BatchPre π
deriving DecidableEq

/-- The pre-worker part of the route (lines 194-200): coerce non-array
input to `[]`, answer `200 {results: []}` for an empty list, answer
`413` for more than 50 items, otherwise spawn the executor on the items. -/
def weatherBatchPre (π : Type) (body : BodyLocs) : BatchPre π :=
  let locations := match body with | .nonArray => [] | .array l => l
  if locations.length = 0 then .respond 200 (.results [])
  else if 50 < locations.length then
    .respond 413 (.err "Too many locations. Max 50.")
  else .spawn locations

/-- The whole route as a relation, parameterized by an arbitrary
executor semantics `Run` (relating starting caches and items to the
result list, final caches and upstream call counts): either the
pre-check responds — touching neither caches nor upstream — or the
executor runs and its results are sent with status 200. -/
inductive WeatherBatchExec {π : Type}
    (Run : Caches π → List RawLoc → List (BatchResult π) × Caches π × ℕ × ℕ → Prop)
    (c : Caches π) (body : BodyLocs) :
    ℕ × BatchRespBody π × Caches π × ℕ × ℕ → Prop where
  | short (st : ℕ) (rb : BatchRespBody π)
      (hpre : weatherBatchPre π body = .respond st rb) :
      WeatherBatchExec Run c body (st, rb, c, 0, 0)
  | run (locs : List RawLoc) (rs : List (BatchResult π)) (c2 : Caches π) (pc fc : ℕ)
      (hpre : weatherBatchPre π body = .spawn locs)
      (hrun : Run c locs (rs, c2, pc, fc)) :
      WeatherBatchExec Run c body (200, .results rs, c2, pc, fc)


/-! ## Concrete fixtures used by the closed instantiations below -/

/-- An upstream that always resolves: endpoint `"u"`, periods `[5]`. -/
def okUpstream : Upstream ℕ :=
  ⟨fun _ _ => .ok (some "u"), fun _ => .ok (some [5])⟩

/-- An upstream whose points response lacks the forecast URL field. -/
def noUrlUpstream : Upstream ℕ :=
  ⟨fun _ _ => .ok none, fun _ => .ok (some [5])⟩

/-- Two plain items for a concrete pool run. -/
def wItems : List ℕ := [10, 20]

/-- A concrete per-item computation for the pool run. -/
def wf : ℕ → ℕ → ℕ := fun a i => a + i

/-- The final state of one complete out-of-order schedule over `wItems`. -/
def wPoolFinal : PoolState ℕ := ⟨4, [some 10, some 21], [.done, .done], [1, 0]⟩

/-- A batch item with every field present directly. -/
def wLocA : RawLoc := ⟨.num (.fin 1), .undef, .num (.fin 2), .undef, .str "A"⟩

/-- A batch item whose coordinates are `null` (its resolution fails). -/
def wLocB : RawLoc := ⟨.null, .null, .null, .null, .undef⟩

/-- A batch item using the `latitude`/`longitude` fallback fields. -/
def wLocC : RawLoc := ⟨.undef, .num (.fin 3), .undef, .num (.fin 4), .null⟩

/-- A three-item batch whose middle item fails. -/
def wBatchItems : List RawLoc := [wLocA, wLocB, wLocC]

/-- A resolver that throws exactly on `null` latitude input. -/
def wResolver : JSVal → JSVal → Except JSError (List ℕ) :=
  fun lat _ =>
    match lat with
    | .null => .error ⟨"boom", 502⟩
    | _ => .ok [3]

/-- The final state of one complete schedule of the batch pool over
`wBatchItems` with `wResolver`. -/
def wBatchFinal : PoolState (BatchResult ℕ) :=
  ⟨5,
    [some ⟨.str "A", some (.fin 1), some (.fin 2), some [3], none⟩,
      some ⟨.null, none, none, none, some "boom"⟩,
      some ⟨.null, some (.fin 3), some (.fin 4), some [3], none⟩],
    [.done, .done], [1, 0, 2]⟩

/-- An item with no fields set. -/
def defaultRawLoc : RawLoc := ⟨.undef, .undef, .undef, .undef, .undef⟩

/-- An oversized batch input: 51 items. -/
def wBigList : List RawLoc := List.replicate 51 defaultRawLoc

/-- A trivial executor semantics, for instantiating the route relation. -/
def trivRun (π : Type) :
    Caches π → List RawLoc → List (BatchResult π) × Caches π × ℕ × ℕ → Prop :=
  fun _ _ _ => True

/-! ## Correctness of the worker pool -/

/-- Indexing into `List.replicate`. -/
theorem get?_replicate_of_lt {γ : Type} {a : γ} {n i : ℕ} (h : i < n) :
    (List.replicate n a).get? i = some a := by
  induction n generalizing i with
  | zero => omega
  | succ m ih =>
      cases i with
      | zero => rfl
      | succ j =>
          rw [List.replicate_succ, List.get?_cons_succ]
          exact ih (by omega)

/-- Anything found in a `List.replicate` is the replicated element. -/
theorem get?_replicate_elim {γ : Type} {a v : γ} {n i : ℕ}
    (h : (List.replicate n a).get? i = some v) : v = a := by
  induction n generalizing i with
  | zero => simp at h
  | succ m ih =>
      cases i with
      | zero => simpa [eq_comm] using h
      | succ j =>
          rw [List.replicate_succ, List.get?_cons_succ] at h
          exact ih h

/-- The invariant holds at the start of an execution. -/
theorem poolInv_init {α ρ : Type} (items : List α) (f : α → ℕ → ρ) (limit : ℕ) :
    PoolInv items f (initPool (ρ := ρ) items limit) := by
  constructor
  · simp [initPool]
  · intro w i hw
    exact absurd (get?_replicate_elim hw) (by simp)
  · intro w w' i hw hw'
    exact absurd (get?_replicate_elim hw) (by simp)
  · intro w i hw
    exact absurd (get?_replicate_elim hw) (by simp)
  · intro i h hidx
    exact absurd hidx (by simp [initPool])
  · intro i _ h
    exact get?_replicate_of_lt h
  · intro i
    constructor
    · intro hmem
      exact absurd hmem (by simp [initPool])
    · rintro ⟨h1, h2⟩
      exact absurd (get?_replicate_of_lt h1) h2
  · simp [initPool]
  · intro w hw
    exact absurd (get?_replicate_elim hw) (by simp)

/-- Case split for reading an index of a list after `List.set`. -/
theorem get?_set_cases {γ : Type} {l : List γ} {m n : ℕ} {x v : γ}
    (h : (l.set m x).get? n = some v) :
    (m = n ∧ v = x) ∨ (m ≠ n ∧ l.get? n = some v) := by
  by_cases hmn : m = n
  · subst hmn
    left
    have hlt : m < l.length := by
      have h1 := (List.get?_eq_some.mp h).1
      simpa using h1
    rw [List.get?_set_eq_of_lt x hlt] at h
    exact ⟨rfl, (Option.some_inj.mp h).symm⟩
  · right
    exact ⟨hmn, by rwa [List.get?_set_ne x l hmn] at h⟩

/-- Every pool step preserves the execution invariant. -/
theorem poolInv_step {α ρ : Type} {items : List α} {f : α → ℕ → ρ}
    {s t : PoolState ρ} (inv : PoolInv items f s) (st : PoolStep items f s t) :
    PoolInv items f t := by
  cases st with
  | claimHit w hw hi =>
      have hwlt : w < s.workers.length := by
        have h1 := (List.get?_eq_some.mp hw).1
        simpa using h1
      refine ⟨inv.resLen, ?_, ?_, ?_, ?_, ?_, inv.procsMem, inv.procsNodup, ?_⟩
      · intro w' i h'
        rcases get?_set_cases h' with ⟨_, hv⟩ | ⟨_, hold⟩
        · obtain rfl : i = s.idx := by injection hv
          exact ⟨hi, by show s.idx < s.idx + 1; omega⟩
        · have h2 := inv.widx w' i hold
          exact ⟨h2.1, by show i < s.idx + 1; omega⟩
      · intro w1 w2 i h1 h2
        rcases get?_set_cases h1 with ⟨he1, hv1⟩ | ⟨hne1, hold1⟩ <;>
          rcases get?_set_cases h2 with ⟨he2, hv2⟩ | ⟨hne2, hold2⟩
        · omega
        · obtain rfl : i = s.idx := by injection hv1
          exact absurd (inv.widx w2 s.idx hold2).2 (by omega)
        · obtain rfl : i = s.idx := by injection hv2
          exact absurd (inv.widx w1 s.idx hold1).2 (by omega)
        · exact inv.wdisj w1 w2 i hold1 hold2
      · intro w' i h'
        rcases get?_set_cases h' with ⟨_, hv⟩ | ⟨_, hold⟩
        · obtain rfl : i = s.idx := by injection hv
          exact inv.fresh s.idx le_rfl hi
        · exact inv.wres w' i hold
      · intro i h hidx
        have hidx2 : i < s.idx + 1 := hidx
        by_cases hcase : i = s.idx
        · subst hcase
          right
          exact ⟨w, List.get?_set_eq_of_lt _ hwlt⟩
        · rcases inv.covered i h (by omega) with hres | ⟨w', hw'⟩
          · exact Or.inl hres
          · right
            refine ⟨w', ?_⟩
            have hne : w ≠ w' := by
              intro he
              subst he
              rw [hw] at hw'
              exact absurd (Option.some_inj.mp hw') (by simp)
            rw [List.get?_set_ne _ _ hne]
            exact hw'
      · intro i hge hlt
        have hge2 : s.idx + 1 ≤ i := hge
        exact inv.fresh i (by omega) hlt
      · intro w' h'
        rcases get?_set_cases h' with ⟨_, hv⟩ | ⟨_, hold⟩
        · exact absurd hv (by simp)
        · have h2 := inv.doneIdx w' hold
          show items.length < s.idx + 1
          omega
  | claimMiss w hw hi =>
      have hwlt : w < s.workers.length := by
        have h1 := (List.get?_eq_some.mp hw).1
        simpa using h1
      refine ⟨inv.resLen, ?_, ?_, ?_, ?_, ?_, inv.procsMem, inv.procsNodup, ?_⟩
      · intro w' i h'
        rcases get?_set_cases h' with ⟨_, hv⟩ | ⟨_, hold⟩
        · exact absurd hv (by simp)
        · have h2 := inv.widx w' i hold
          exact ⟨h2.1, by show i < s.idx + 1; omega⟩
      · intro w1 w2 i h1 h2
        rcases get?_set_cases h1 with ⟨_, hv1⟩ | ⟨_, hold1⟩
        · exact absurd hv1 (by simp)
        · rcases get?_set_cases h2 with ⟨_, hv2⟩ | ⟨_, hold2⟩
          · exact absurd hv2 (by simp)
          · exact inv.wdisj w1 w2 i hold1 hold2
      · intro w' i h'
        rcases get?_set_cases h' with ⟨_, hv⟩ | ⟨_, hold⟩
        · exact absurd hv (by simp)
        · exact inv.wres w' i hold
      · intro i h hidx
        rcases inv.covered i h (by omega) with hres | ⟨w', hw'⟩
        · exact Or.inl hres
        · right
          refine ⟨w', ?_⟩
          have hne : w ≠ w' := by
            intro he
            subst he
            rw [hw] at hw'
            exact absurd (Option.some_inj.mp hw') (by simp)
          rw [List.get?_set_ne _ _ hne]
          exact hw'
      · intro i hge hlt
        have hge2 : s.idx + 1 ≤ i := hge
        exact inv.fresh i (by omega) hlt
      · intro w' h'
        rcases get?_set_cases h' with ⟨_, _⟩ | ⟨_, hold⟩
        · show items.length < s.idx + 1
          omega
        · have h2 := inv.doneIdx w' hold
          show items.length < s.idx + 1
          omega
  | fire w i hi hw =>
      have hwlt : w < s.workers.length := by
        have h1 := (List.get?_eq_some.mp hw).1
        simpa using h1
      have hii := inv.widx w i hw
      have hresi := inv.wres w i hw
      have hrlt : i < s.results.length := by
        have h1 := (List.get?_eq_some.mp hresi).1
        simpa using h1
      refine ⟨(List.length_set _ _ _).trans inv.resLen, ?_, ?_, ?_, ?_, ?_, ?_, ?_, ?_⟩
      · intro w' j h'
        rcases get?_set_cases h' with ⟨_, hv⟩ | ⟨_, hold⟩
        · exact absurd hv (by simp)
        · exact inv.widx w' j hold
      · intro w1 w2 j h1 h2
        rcases get?_set_cases h1 with ⟨_, hv1⟩ | ⟨_, hold1⟩
        · exact absurd hv1 (by simp)
        · rcases get?_set_cases h2 with ⟨_, hv2⟩ | ⟨_, hold2⟩
          · exact absurd hv2 (by simp)
          · exact inv.wdisj w1 w2 j hold1 hold2
      · intro w' j h'
        rcases get?_set_cases h' with ⟨_, hv⟩ | ⟨hne, hold⟩
        · exact absurd hv (by simp)
        · have hji : j ≠ i := by
            intro he
            subst he
            exact hne (inv.wdisj w w' j hw hold)
          rw [List.get?_set_ne _ _ (Ne.symm hji)]
          exact inv.wres w' j hold
      · intro j h hidx
        by_cases hji : j = i
        · subst hji
          left
          rw [List.get?_set_eq_of_lt _ hrlt]
        · rcases inv.covered j h hidx with hres | ⟨w', hw'⟩
          · left
            rw [List.get?_set_ne _ _ (fun he => hji he.symm)]
            exact hres
          · right
            refine ⟨w', ?_⟩
            have hne : w ≠ w' := by
              intro he
              subst he
              rw [hw] at hw'
              have h3 := Option.some_inj.mp hw'
              injection h3 with h4
              exact hji h4.symm
            rw [List.get?_set_ne _ _ hne]
            exact hw'
      · intro j hge hlt
        have hge2 : s.idx ≤ j := hge
        have hji : i ≠ j := by omega
        rw [List.get?_set_ne _ _ hji]
        exact inv.fresh j hge hlt
      · intro j
        rw [List.mem_append, List.mem_singleton]
        by_cases hji : j = i
        · subst hji
          constructor
          · intro _
            exact ⟨hii.1, by rw [List.get?_set_eq_of_lt _ hrlt]; simp⟩
          · intro _
            exact Or.inr rfl
        · rw [List.get?_set_ne _ _ (fun he => hji he.symm)]
          constructor
          · rintro (hmem | he)
            · exact (inv.procsMem j).mp hmem
            · exact absurd he hji
          · intro hr
            exact Or.inl ((inv.procsMem j).mpr hr)
      · have hni : i ∉ s.procs := fun hmem => ((inv.procsMem i).mp hmem).2 hresi
        rw [List.nodup_append]
        refine ⟨inv.procsNodup, List.nodup_singleton i, ?_⟩
        intro a ha hb
        rw [List.mem_singleton] at hb
        subst hb
        exact hni ha
      · intro w' h'
        rcases get?_set_cases h' with ⟨_, hv⟩ | ⟨_, hold⟩
        · exact absurd hv (by simp)
        · exact inv.doneIdx w' hold

/-- A pool step never changes the number of runners. -/
theorem poolStep_workers_length {α ρ : Type} {items : List α} {f : α → ℕ → ρ}
    {s t : PoolState ρ} (st : PoolStep items f s t) :
    t.workers.length = s.workers.length := by
  cases st <;> simp

/-- The invariant holds at every reachable state of an execution. -/
theorem poolReach_inv {α ρ : Type} {items : List α} {f : α → ℕ → ρ}
    {limit : ℕ} {s : PoolState ρ}
    (hreach : PoolReach items f (initPool items limit) s) : PoolInv items f s := by
  induction hreach with
  | refl => exact poolInv_init items f limit
  | tail _ hstep ih => exact poolInv_step ih hstep

/-- The runner count is constant along any execution. -/
theorem poolReach_workers_length {α ρ : Type} {items : List α} {f : α → ℕ → ρ}
    {s0 s : PoolState ρ} (hreach : PoolReach items f s0 s) :
    s.workers.length = s0.workers.length := by
  induction hreach with
  | refl => rfl
  | tail _ hstep ih => exact (poolStep_workers_length hstep).trans ih

/-- Main correctness of `mapWithConcurrency` runs: at any completed
state reached from the initial one with a positive limit, the results
array has the input's length, slot `i` holds the worker's result for
item `i`, and the processed-trace is a permutation of all indices (each
claimed exactly once, none skipped). -/
theorem pool_correct {α ρ : Type} {items : List α} {f : α → ℕ → ρ}
    {limit : ℕ} {s : PoolState ρ} (hlim : 1 ≤ limit)
    (hreach : PoolReach items f (initPool items limit) s) (hdone : AllDone s) :
    s.results.length = items.length ∧
    (∀ i (h : i < items.length),
      s.results.get? i = some (some (f (items.get ⟨i, h⟩) i))) ∧
    s.procs.Perm (List.range items.length) := by
  have inv := poolReach_inv hreach
  have hwl : s.workers.length = min limit items.length := by
    have h1 := poolReach_workers_length hreach
    simpa [initPool] using h1
  have hres : ∀ i (h : i < items.length),
      s.results.get? i = some (some (f (items.get ⟨i, h⟩) i)) := by
    intro i h
    have hw0 : 0 < s.workers.length := by omega
    have hget : s.workers.get? 0 = some (s.workers.get ⟨0, hw0⟩) :=
      List.get?_eq_get hw0
    have hdone0 : s.workers.get ⟨0, hw0⟩ = WStatus.done :=
      hdone _ (List.get_mem s.workers 0 hw0)
    have hidx : items.length < s.idx := by
      apply inv.doneIdx 0
      rw [hget, hdone0]
    rcases inv.covered i h (by omega) with hok | ⟨w, hw⟩
    · exact hok
    · have hwin : WStatus.awaiting i ∈ s.workers := by
        have h1 := (List.get?_eq_some.mp hw).1
        have h2 := (List.get?_eq_some.mp hw).2
        rw [← h2]
        exact List.get_mem s.workers w (by simpa using h1)
      exact absurd (hdone _ hwin) (by simp)
  refine ⟨inv.resLen, hres, ?_⟩
  rw [List.perm_ext_iff_of_nodup inv.procsNodup (List.nodup_range _)]
  intro a
  rw [List.mem_range, inv.procsMem a]
  constructor
  · exact fun h => h.1
  · intro h
    refine ⟨h, ?_⟩
    rw [hres a h]
    simp

/-! ## Cache lemmas -/

/-- Erasing a key removes it. -/
theorem cLookup_cErase_self {α : Type} (m : CacheMap α) (k : String) :
    cLookup (cErase m k) k = none := by
  induction m with
  | nil => rfl
  | cons p t ih =>
      obtain ⟨k', e⟩ := p
      by_cases h : k' = k
      · simpa [cErase, h] using ih
      · simpa [cErase, cLookup, h] using ih

/-- Erasing one key leaves the others. -/
theorem cLookup_cErase_ne {α : Type} (m : CacheMap α) {k k' : String}
    (h : k' ≠ k) : cLookup (cErase m k) k' = cLookup m k' := by
  induction m with
  | nil => rfl
  | cons p t ih =>
      obtain ⟨k0, e⟩ := p
      rw [cErase]
      by_cases h0 : k0 = k
      · have hk0 : ¬ k0 = k' := by
          rw [h0]
          exact fun h1 => h h1.symm
        rw [if_pos h0]
        simp only [cLookup]
        rw [if_neg hk0]
        exact ih
      · rw [if_neg h0]
        simp only [cLookup]
        by_cases h1 : k0 = k'
        · rw [if_pos h1, if_pos h1]
        · rw [if_neg h1, if_neg h1]
          exact ih

/-- A set key is found with the written expiry. -/
theorem cLookup_cacheSet_self {α : Type} (m : CacheMap α) (k : String)
    (v : α) (ttl now : ℤ) :
    cLookup (cacheSet m k v ttl now) k = some ⟨v, now + ttl⟩ := by
  simp [cacheSet, cLookup]

/-- Setting one key leaves the others. -/
theorem cLookup_cacheSet_ne {α : Type} (m : CacheMap α) {k k' : String}
    (v : α) (ttl now : ℤ) (h : k' ≠ k) :
    cLookup (cacheSet m k v ttl now) k' = cLookup m k' := by
  rw [cacheSet]
  simp only [cLookup]
  rw [if_neg (fun hh => h hh.symm)]
  exact cLookup_cErase_ne m h

/-- A found entry is a member of the association list. -/
theorem cLookup_mem {α : Type} {m : CacheMap α} {k : String} {e : CEntry α}
    (h : cLookup m k = some e) : (k, e) ∈ m := by
  induction m with
  | nil => exact absurd h (by simp [cLookup])
  | cons p t ih =>
      obtain ⟨k0, e0⟩ := p
      by_cases h0 : k0 = k
      · subst h0
        rw [cLookup, if_pos rfl] at h
        exact (Option.some_inj.mp h) ▸ List.mem_cons_self _ _
      · rw [cLookup, if_neg h0] at h
        exact List.mem_cons_of_mem _ (ih h)

/-- The map returned by `cacheGet` never gains entries: anything found
afterwards was found before. -/
theorem cacheGet_sub {α : Type} {m : CacheMap α} {k k' : String} {now : ℤ}
    {e : CEntry α} (h : cLookup (cacheGet m k now).2 k' = some e) :
    cLookup m k' = some e := by
  rcases h0 : cLookup m k with _ | e0
  · simpa [cacheGet, h0] using h
  · by_cases hexp : e0.expiresAt ≤ now
    · simp only [cacheGet, h0, if_pos hexp] at h
      by_cases hk : k' = k
      · subst hk
        rw [cLookup_cErase_self] at h
        exact absurd h (by simp)
      · rwa [cLookup_cErase_ne m hk] at h
    · simpa [cacheGet, h0, hexp] using h


/-! ## Resolver stage lemmas -/

/-- The `pointsFetch` helper always makes exactly one upstream points call. -/
theorem pointsFetch_calls {π : Type} (u : Upstream π) (a b : JSNum)
    (key : String) (now : ℤ) (pc : CacheMap String) :
    (pointsFetch u a b key now pc).2.1 = 1 := by
  rcases he : u.fetchPoints a b with e | fopt
  · simp [pointsFetch, he]
  · rcases fopt with _ | url
    · simp [pointsFetch, he]
    · by_cases hu : url = "" <;> simp [pointsFetch, he, hu]

/-- When `pointsFetch` yields a URL, that URL is non-empty and was just
written to the points cache with the long TTL. -/
theorem pointsFetch_ok {π : Type} {u : Upstream π} {a b : JSNum}
    {key : String} {now : ℤ} {pc1 pc2 : CacheMap String} {n : ℕ} {url : String}
    (h : pointsFetch u a b key now pc1 = (pc2, n, .ok url)) :
    url ≠ "" ∧ n = 1 ∧ pc2 = cacheSet pc1 key url TTL.points now := by
  rcases he : u.fetchPoints a b with e | fopt
  · simp only [pointsFetch, he] at h
    exact absurd h (by simp)
  · rcases fopt with _ | url0
    · simp only [pointsFetch, he] at h
      exact absurd h (by simp)
    · by_cases hu : url0 = ""
      · simp only [pointsFetch, he, if_pos hu] at h
        exact absurd h (by simp)
      · simp only [pointsFetch, he, if_neg hu, Prod.mk.injEq] at h
        obtain ⟨h1, h2, h3⟩ := h
        obtain rfl : url0 = url := by injection h3
        exact ⟨hu, h2.symm, h1.symm⟩

/-- When `pointsFetch` fails (upstream error, or a success response with
a missing or empty forecast URL), the points cache is left untouched. -/
theorem pointsFetch_fail {π : Type} {u : Upstream π} {a b : JSNum}
    (key : String) (now : ℤ) (pc1 : CacheMap String)
    (hfail : (∃ e, u.fetchPoints a b = .error e) ∨
      u.fetchPoints a b = .ok none ∨ u.fetchPoints a b = .ok (some "")) :
    ∃ e, pointsFetch u a b key now pc1 = (pc1, 1, .error e) := by
  rcases hfail with ⟨e, he⟩ | he | he
  · exact ⟨e, by simp [pointsFetch, he]⟩
  · exact ⟨⟨"NWS points response missing forecast URL", 502⟩, by simp [pointsFetch, he]⟩
  · exact ⟨⟨"NWS points response missing forecast URL", 502⟩, by simp [pointsFetch, he]⟩

/-- When the points stage yields a URL, the URL is non-empty, at most one
upstream call was made, and the resulting cache holds the URL under the
key — freshly written with the long TTL, or carried over unexpired. -/
theorem pointsStage_ok {π : Type} {u : Upstream π} {a b : JSNum}
    {key : String} {now : ℤ} {pc pc2 : CacheMap String} {n : ℕ} {url : String}
    (h : pointsStage u a b key now pc = (pc2, n, .ok url)) :
    url ≠ "" ∧ n ≤ 1 ∧
    ∃ exp, cLookup pc2 key = some ⟨url, exp⟩ ∧
      (exp = now + TTL.points ∨
        (cLookup pc key = some ⟨url, exp⟩ ∧ now < exp)) := by
  rw [pointsStage] at h
  rcases h0 : cLookup pc key with _ | e0
  · simp only [cacheGet, h0] at h
    obtain ⟨hu, hn, hpc⟩ := pointsFetch_ok h
    subst hpc
    exact ⟨hu, by omega, now + TTL.points,
      cLookup_cacheSet_self pc key url TTL.points now, Or.inl rfl⟩
  · obtain ⟨v0, x0⟩ := e0
    by_cases hexp : x0 ≤ now
    · simp only [cacheGet, h0, if_pos hexp] at h
      obtain ⟨hu, hn, hpc⟩ := pointsFetch_ok h
      subst hpc
      exact ⟨hu, by omega, now + TTL.points,
        cLookup_cacheSet_self _ key url TTL.points now, Or.inl rfl⟩
    · simp only [cacheGet, h0, if_neg hexp] at h
      by_cases hval : v0 = ""
      · rw [if_pos hval] at h
        obtain ⟨hu, hn, hpc⟩ := pointsFetch_ok h
        subst hpc
        exact ⟨hu, by omega, now + TTL.points,
          cLookup_cacheSet_self pc key url TTL.points now, Or.inl rfl⟩
      · rw [if_neg hval] at h
        rw [Prod.mk.injEq, Prod.mk.injEq] at h
        obtain ⟨h1, h2, h3⟩ := h
        obtain rfl : v0 = url := by injection h3
        subst h1
        exact ⟨hval, by omega, x0, h0, Or.inr ⟨rfl, by omega⟩⟩

/-- When the forecast stage yields periods, at most one upstream call was
made and the resulting cache holds the periods under the URL — freshly
written with the short TTL, or carried over unexpired. -/
theorem forecastStage_ok {π : Type} {u : Upstream π} {url : String} {now : ℤ}
    {fc fc2 : CacheMap (List π)} {n : ℕ} {p : List π}
    (h : forecastStage u url now fc = (fc2, n, .ok p)) :
    n ≤ 1 ∧ ∃ exp, cLookup fc2 url = some ⟨p, exp⟩ ∧
      (exp = now + TTL.forecast ∨
        (cLookup fc url = some ⟨p, exp⟩ ∧ now < exp)) := by
  rw [forecastStage] at h
  rcases h0 : cLookup fc url with _ | e0
  · simp only [cacheGet, h0] at h
    rcases he : u.fetchForecast url with e | popt
    · simp only [he] at h
      exact absurd h (by simp)
    · simp only [he] at h
      rw [Prod.mk.injEq, Prod.mk.injEq] at h
      obtain ⟨h1, h2, h3⟩ := h
      obtain rfl : popt.getD [] = p := by injection h3
      subst h1
      exact ⟨by omega, now + TTL.forecast,
        cLookup_cacheSet_self fc url _ TTL.forecast now, Or.inl rfl⟩
  · obtain ⟨v0, x0⟩ := e0
    by_cases hexp : x0 ≤ now
    · simp only [cacheGet, h0, if_pos hexp] at h
      rcases he : u.fetchForecast url with e | popt
      · simp only [he] at h
        exact absurd h (by simp)
      · simp only [he] at h
        rw [Prod.mk.injEq, Prod.mk.injEq] at h
        obtain ⟨h1, h2, h3⟩ := h
        obtain rfl : popt.getD [] = p := by injection h3
        subst h1
        exact ⟨by omega, now + TTL.forecast,
          cLookup_cacheSet_self _ url _ TTL.forecast now, Or.inl rfl⟩
    · simp only [cacheGet, h0, if_neg hexp] at h
      rw [Prod.mk.injEq, Prod.mk.injEq] at h
      obtain ⟨h1, h2, h3⟩ := h
      obtain rfl : v0 = p := by injection h3
      subst h1
      exact ⟨by omega, x0, h0, Or.inr ⟨rfl, by omega⟩⟩

/-- Invalid input makes the resolver fail with the 400 error before any
cache read or upstream call: caches unchanged, zero calls. -/
theorem resolve_err400 {π : Type} (u : Upstream π) {lat lon : JSVal}
    (now : ℤ) (c : Caches π) (hval : validateLatLon lat lon = none) :
    getForecastForLatLon u lat lon now c =
      ⟨.error ⟨"lat and lon must be valid numbers", 400⟩, c, 0, 0⟩ := by
  rw [getForecastForLatLon, hval]

/-- A successful resolver call decomposes into a successful points stage
followed by a successful forecast stage. -/
theorem resolve_decomp_ok {π : Type} {u : Upstream π} {lat lon : JSVal}
    {a b : JSNum} {now : ℤ} {c : Caches π} {p : List π}
    (hval : validateLatLon lat lon = some (a, b))
    (hres : (getForecastForLatLon u lat lon now c).res = .ok p) :
    ∃ url pc2 fc2 pcalls fcalls,
      pointsStage u a b (coordKeyOf a b) now c.points = (pc2, pcalls, .ok url) ∧
      forecastStage u url now c.forecast = (fc2, fcalls, .ok p) ∧
      getForecastForLatLon u lat lon now c = ⟨.ok p, ⟨pc2, fc2⟩, pcalls, fcalls⟩ := by
  rcases hps : pointsStage u a b (coordKeyOf a b) now c.points with ⟨pc2, pcalls, r⟩
  rcases r with e | url
  · have heq : getForecastForLatLon u lat lon now c =
        ⟨.error e, ⟨pc2, c.forecast⟩, pcalls, 0⟩ := by
      simp [getForecastForLatLon, hval, hps]
    rw [heq] at hres
    exact absurd hres (by simp)
  · rcases hfs : forecastStage u url now c.forecast with ⟨fc2, fcalls, r2⟩
    have heq : getForecastForLatLon u lat lon now c =
        ⟨r2, ⟨pc2, fc2⟩, pcalls, fcalls⟩ := by
      simp [getForecastForLatLon, hval, hps, hfs]
    rw [heq] at hres
    obtain rfl : r2 = .ok p := hres
    exact ⟨url, pc2, fc2, pcalls, fcalls, rfl, hfs, heq⟩

/-- When both caches hold live entries for the key and URL, the resolver
answers from cache: no upstream call of either kind, caches unchanged. -/
theorem resolve_hits {π : Type} {u : Upstream π} {lat lon : JSVal}
    {a b : JSNum} {now : ℤ} {c : Caches π} {url : String} {exp exp2 : ℤ}
    {p : List π}
    (hval : validateLatLon lat lon = some (a, b))
    (hpts : cLookup c.points (coordKeyOf a b) = some ⟨url, exp⟩)
    (hexp : now < exp) (hurl : url ≠ "")
    (hfc : cLookup c.forecast url = some ⟨p, exp2⟩) (hexp2 : now < exp2) :
    getForecastForLatLon u lat lon now c = ⟨.ok p, c, 0, 0⟩ := by
  have hps : pointsStage u a b (coordKeyOf a b) now c.points =
      (c.points, 0, .ok url) := by
    rw [pointsStage]
    simp only [cacheGet, hpts, if_neg (by omega : ¬ exp ≤ now)]
    rw [if_neg hurl]
  have hfs : forecastStage u url now c.forecast = (c.forecast, 0, .ok p) := by
    rw [forecastStage]
    simp only [cacheGet, hfc, if_neg (by omega : ¬ exp2 ≤ now)]
  simp [getForecastForLatLon, hval, hps, hfs]

/-- When the points cache genuinely misses, the resolver makes exactly
one upstream points call, whatever happens afterwards. -/
theorem resolve_miss_pointsCalls {π : Type} {u : Upstream π} {lat lon : JSVal}
    {a b : JSNum} {now : ℤ} {c : Caches π}
    (hval : validateLatLon lat lon = some (a, b))
    (hmiss : cLookup c.points (coordKeyOf a b) = none) :
    (getForecastForLatLon u lat lon now c).pointsCalls = 1 := by
  have hps : pointsStage u a b (coordKeyOf a b) now c.points =
      pointsFetch u a b (coordKeyOf a b) now c.points := by
    rw [pointsStage]
    simp only [cacheGet, hmiss]
  rcases hpf : pointsFetch u a b (coordKeyOf a b) now c.points with ⟨pc2, n, r⟩
  have hn : n = 1 := by
    have h1 := pointsFetch_calls u a b (coordKeyOf a b) now c.points
    rw [hpf] at h1
    exact h1
  rcases r with e | url
  · simp [getForecastForLatLon, hval, hps, hpf, hn]
  · rcases hfs : forecastStage u url now c.forecast with ⟨fc2, fcalls, r2⟩
    simp [getForecastForLatLon, hval, hps, hpf, hfs, hn]

/-- A failing endpoint resolution on a genuine points-cache miss: the
call errors, the points cache afterwards has no entry for the key, the
forecast cache is untouched, and no forecast fetch happened. -/
theorem resolve_points_fail {π : Type} {u : Upstream π} {lat lon : JSVal}
    {a b : JSNum} {now : ℤ} {c : Caches π}
    (hval : validateLatLon lat lon = some (a, b))
    (hmiss : cLookup c.points (coordKeyOf a b) = none ∨
      ∃ e0, cLookup c.points (coordKeyOf a b) = some e0 ∧ e0.expiresAt ≤ now)
    (hfail : (∃ e, u.fetchPoints a b = .error e) ∨
      u.fetchPoints a b = .ok none ∨ u.fetchPoints a b = .ok (some "")) :
    ∃ e pc2, getForecastForLatLon u lat lon now c =
        ⟨.error e, ⟨pc2, c.forecast⟩, 1, 0⟩ ∧
      cLookup pc2 (coordKeyOf a b) = none := by
  rcases hmiss with h0 | ⟨e0, h0, hexp⟩
  · obtain ⟨e, hpf⟩ := pointsFetch_fail (coordKeyOf a b) now c.points hfail
    refine ⟨e, c.points, ?_, h0⟩
    have hps : pointsStage u a b (coordKeyOf a b) now c.points =
        (c.points, 1, .error e) := by
      rw [pointsStage]
      simp only [cacheGet, h0]
      exact hpf
    simp [getForecastForLatLon, hval, hps]
  · obtain ⟨e, hpf⟩ := pointsFetch_fail (coordKeyOf a b) now
      (cErase c.points (coordKeyOf a b)) hfail
    refine ⟨e, cErase c.points (coordKeyOf a b), ?_, cLookup_cErase_self _ _⟩
    have hps : pointsStage u a b (coordKeyOf a b) now c.points =
        (cErase c.points (coordKeyOf a b), 1, .error e) := by
      rw [pointsStage]
      simp only [cacheGet, h0, if_pos hexp]
      exact hpf
    simp [getForecastForLatLon, hval, hps]

/-! ## Rounding -/

/-- The `toFixed` choice (floor plus half-test) is floor of the shifted
value plus one half: round-half-up. -/
theorem jsFixedRound_eq (x : ℚ) : jsFixedRound x = ⌊x * 10000 + 1 / 2⌋ := by
  rw [jsFixedRound]
  by_cases h : (1 : ℚ) / 2 ≤ x * 10000 - ⌊x * 10000⌋
  · rw [if_pos h]
    symm
    rw [Int.floor_eq_iff]
    have h1 := Int.floor_le (x * 10000)
    have h2 := Int.lt_floor_add_one (x * 10000)
    refine ⟨?_, ?_⟩ <;> push_cast <;> linarith
  · rw [if_neg h]
    symm
    rw [Int.floor_eq_iff]
    have h1 := Int.floor_le (x * 10000)
    have h2 : x * 10000 - ⌊x * 10000⌋ < 1 / 2 := lt_of_not_le h
    refine ⟨?_, ?_⟩ <;> push_cast <;> linarith

/-- The `toFixed(4)` string renders exactly the half-away-from-zero rounding of its
argument at four decimal places. -/
theorem jsToFixed4_eq_specFixed4 (q : ℚ) : jsToFixed4 q = specFixed4 q := by
  rw [jsToFixed4, specFixed4, specRound4]
  by_cases h : q < 0
  · rw [if_pos h, if_pos h, if_pos h, jsFixedRound_eq]
    have h0 : 0 ≤ ⌊-q * 10000 + 1 / 2⌋ := by
      apply Int.floor_nonneg.mpr
      nlinarith
    have hs : (⌊-q * 10000 + 1 / 2⌋).toNat = (-⌊-q * 10000 + 1 / 2⌋).natAbs := by
      omega
    rw [hs]
  · rw [if_neg h, if_neg h, if_neg h, jsFixedRound_eq]
    have h0 : 0 ≤ ⌊q * 10000 + 1 / 2⌋ := by
      apply Int.floor_nonneg.mpr
      push_neg at h
      nlinarith
    have hs : (⌊q * 10000 + 1 / 2⌋).toNat = (⌊q * 10000 + 1 / 2⌋).natAbs := by
      omega
    rw [hs]
    simp

/-! ## Claim theorems -/

/-- C6: For every pair of finite numbers (lat, lon) in the modelled
magnitude range (below `10^21`, where `toFixed` stays in fixed-point
notation), the coordinate normalizer produces
`"<lat rounded to 4 decimals>,<lon rounded to 4 decimals>"` with rounding
half-away-from-zero at 4 decimal places; and the two spec pairs
(40.71234499, -74.00599501) and (40.71234501, -74.00599499) normalize to
the identical cache key. -/
theorem coordKey_rounding :
    (∀ a b : ℚ, |a| < 10 ^ 21 → |b| < 10 ^ 21 →
      coordKeyOf (.fin a) (.fin b) = specFixed4 a ++ "," ++ specFixed4 b) ∧
    coordKeyOf (.fin (40.71234499 : ℚ)) (.fin (-74.00599501 : ℚ)) =
      coordKeyOf (.fin (40.71234501 : ℚ)) (.fin (-74.00599499 : ℚ)) := by
  constructor
  · intro a b _ _
    rw [coordKeyOf]
    show jsToFixed4 a ++ "," ++ jsToFixed4 b = _
    rw [jsToFixed4_eq_specFixed4, jsToFixed4_eq_specFixed4]
  · have e1 : jsToFixed4 (40.71234499 : ℚ) = "40.7123" := by
      have hf : ⌊(40.71234499 : ℚ) * 10000 + 1 / 2⌋ = 407123 := by
        norm_num [Int.floor_eq_iff]
      rw [jsToFixed4, if_neg (by norm_num), jsFixedRound_eq, hf]
      rfl
    have e2 : jsToFixed4 (40.71234501 : ℚ) = "40.7123" := by
      have hf : ⌊(40.71234501 : ℚ) * 10000 + 1 / 2⌋ = 407123 := by
        norm_num [Int.floor_eq_iff]
      rw [jsToFixed4, if_neg (by norm_num), jsFixedRound_eq, hf]
      rfl
    have e3 : jsToFixed4 (-74.00599501 : ℚ) = "-74.0060" := by
      have hf : ⌊(-(-74.00599501 : ℚ)) * 10000 + 1 / 2⌋ = 740060 := by
        norm_num [Int.floor_eq_iff]
      rw [jsToFixed4, if_pos (by norm_num), jsFixedRound_eq, hf]
      rfl
    have e4 : jsToFixed4 (-74.00599499 : ℚ) = "-74.0060" := by
      have hf : ⌊(-(-74.00599499 : ℚ)) * 10000 + 1 / 2⌋ = 740060 := by
        norm_num [Int.floor_eq_iff]
      rw [jsToFixed4, if_pos (by norm_num), jsFixedRound_eq, hf]
      rfl
    rw [coordKeyOf, coordKeyOf]
    show jsToFixed4 _ ++ "," ++ jsToFixed4 _ = jsToFixed4 _ ++ "," ++ jsToFixed4 _
    rw [e1, e2, e3, e4]

/-- Closed instance of the C6 statement at the spec's first pair. -/
theorem coordKey_rounding_witness :
    coordKeyOf (.fin (40.71234499 : ℚ)) (.fin (-74.00599501 : ℚ)) =
      specFixed4 (40.71234499 : ℚ) ++ "," ++ specFixed4 (-74.00599501 : ℚ) :=
  coordKey_rounding.1 (40.71234499 : ℚ) (-74.00599501 : ℚ)
    (by rw [abs_lt]; norm_num) (by rw [abs_lt]; norm_num)

/-- C7: a TTL cache entry is never returned once `now >= expiresAt` — it
is deleted and treated as absent — and an entry inserted with `ttl = 0`
is absent on any read at the same or later clock time. -/
theorem cacheGet_expiry :
    (∀ (α : Type) (m : CacheMap α) (key : String) (now : ℤ) (e : CEntry α),
      cLookup m key = some e → e.expiresAt ≤ now →
      (cacheGet m key now).1 = none ∧ cLookup (cacheGet m key now).2 key = none) ∧
    (∀ (α : Type) (m : CacheMap α) (key : String) (v : α) (t t' : ℤ), t ≤ t' →
      (cacheGet (cacheSet m key v 0 t) key t').1 = none) := by
  constructor
  · intro α m key now e hl hexp
    simp only [cacheGet, hl, if_pos hexp]
    exact ⟨trivial, cLookup_cErase_self m key⟩
  · intro α m key v t t' ht
    simp only [cacheGet, cLookup_cacheSet_self]
    rw [if_pos (by omega : t + 0 ≤ t')]

/-- Closed instance of C7: an entry expired at the read time is neither
returned nor retained, and a `ttl = 0` insert is gone on the next read. -/
theorem cacheGet_expiry_witness :
    ((cacheGet [⟨"k", ⟨7, 5⟩⟩] "k" (5 : ℤ)).1 = (none : Option ℕ) ∧
      cLookup (cacheGet [⟨"k", ⟨7, 5⟩⟩] "k" (5 : ℤ)).2 "k" = none) ∧
    (cacheGet (cacheSet ([] : CacheMap ℕ) "k" 7 0 3) "k" (3 : ℤ)).1 = none :=
  ⟨cacheGet_expiry.1 ℕ [⟨"k", ⟨7, 5⟩⟩] "k" 5 ⟨7, 5⟩ rfl (by decide),
    cacheGet_expiry.2 ℕ [] "k" 7 3 3 (by decide)⟩

/-- C5 counterexample: the string "Infinity" does not parse to a finite
number, yet validation passes and the resolver proceeds to make an
upstream call and answer successfully — refuting that non-finite input
fails with a 400 error before any cache read or upstream call. -/
theorem validate_infinity_cex :
    validateLatLon (.str "Infinity") (.str "0") =
      some (.inf, jsStringToNumber "0") ∧
    (getForecastForLatLon okUpstream (.str "Infinity") (.str "0") 0
      ⟨[], []⟩).pointsCalls = 1 ∧
    (getForecastForLatLon okUpstream (.str "Infinity") (.str "0") 0
      ⟨[], []⟩).res = .ok [5] :=
  ⟨rfl, rfl, rfl⟩

/-- C5 (amended): validation fails with the 400 error exactly when a
value is the empty string, absent (`null`/`undefined`), or converts to
`NaN`; on failure the resolver stops before any cache read or upstream
call; any pair converting to numbers that are not `NaN` — finite values
and the infinities alike — passes validation. -/
theorem validateLatLon_spec :
    (∀ lat lon : JSVal, validateLatLon lat lon = none ↔
      (toNum lat = none ∨ toNum lon = none ∨
        (∃ a, toNum lat = some a ∧ a.isNaN = true) ∨
        (∃ b, toNum lon = some b ∧ b.isNaN = true))) ∧
    (∀ (π : Type) (u : Upstream π) (lat lon : JSVal) (now : ℤ) (c : Caches π),
      validateLatLon lat lon = none →
      getForecastForLatLon u lat lon now c =
        ⟨.error ⟨"lat and lon must be valid numbers", 400⟩, c, 0, 0⟩) ∧
    (∀ (lat lon : JSVal) (a b : JSNum), toNum lat = some a → toNum lon = some b →
      a.isNaN = false → b.isNaN = false → validateLatLon lat lon = some (a, b)) := by
  refine ⟨?_, ?_, ?_⟩
  · intro lat lon
    rw [validateLatLon]
    rcases hl : toNum lat with _ | a
    · simp [hl]
    · rcases hn : toNum lon with _ | b
      · simp [hl, hn]
      · by_cases ha : a.isNaN = true <;> by_cases hb : b.isNaN = true <;>
          simp [hl, hn, ha, hb]
  · intro π u lat lon now c hval
    exact resolve_err400 u now c hval
  · intro lat lon a b hl hn ha hb
    simp [validateLatLon, hl, hn, ha, hb]

/-- Closed instance of the amended C5: an empty-string latitude fails
validation and the resolver answers 400 with nothing else touched, and a
finite pair passes validation. -/
theorem validateLatLon_spec_witness :
    getForecastForLatLon okUpstream (.str "") (.str "1") 0 ⟨[], []⟩ =
      ⟨.error ⟨"lat and lon must be valid numbers", 400⟩, ⟨[], []⟩, 0, 0⟩ ∧
    validateLatLon (.num (.fin 1)) (.num (.fin 2)) = some (.fin 1, .fin 2) :=
  ⟨validateLatLon_spec.2.1 ℕ okUpstream (.str "") (.str "1") 0 ⟨[], []⟩ rfl,
    validateLatLon_spec.2.2 (.num (.fin 1)) (.num (.fin 2)) (.fin 1) (.fin 2)
      rfl rfl rfl rfl⟩

/-- C8: on a genuine points-cache miss, a failed endpoint resolution
(upstream error or missing forecast-URL field) leaves the resolver
failed, the points cache without an entry for the coordinate key, the
forecast cache untouched and unfetched — and a subsequent resolve for
the same coordinates retries endpoint resolution (exactly one upstream
points call). -/
theorem endpoint_failure_not_cached {π : Type} {u : Upstream π}
    {lat lon : JSVal} {a b : JSNum} {now : ℤ} {c : Caches π}
    (hval : validateLatLon lat lon = some (a, b))
    (hmiss : cLookup c.points (coordKeyOf a b) = none ∨
      ∃ e0, cLookup c.points (coordKeyOf a b) = some e0 ∧ e0.expiresAt ≤ now)
    (hfail : (∃ e, u.fetchPoints a b = .error e) ∨
      u.fetchPoints a b = .ok none ∨ u.fetchPoints a b = .ok (some "")) :
    ∃ e, (getForecastForLatLon u lat lon now c).res = .error e ∧
      cLookup (getForecastForLatLon u lat lon now c).caches.points
        (coordKeyOf a b) = none ∧
      (getForecastForLatLon u lat lon now c).caches.forecast = c.forecast ∧
      (getForecastForLatLon u lat lon now c).forecastCalls = 0 ∧
      ∀ t2 : ℤ, (getForecastForLatLon u lat lon t2
        (getForecastForLatLon u lat lon now c).caches).pointsCalls = 1 := by
  obtain ⟨e, pc2, heq, hnone⟩ := resolve_points_fail hval hmiss hfail
  rw [heq]
  exact ⟨e, rfl, hnone, rfl, rfl,
    fun t2 => resolve_miss_pointsCalls hval hnone⟩

/-- Closed instance of C8: a missing forecast-URL field on empty caches
errors without caching, and the immediate retry calls upstream again. -/
theorem endpoint_failure_not_cached_witness :
    ∃ e, (getForecastForLatLon noUrlUpstream (.num (.fin 1)) (.num (.fin 2)) 0
        ⟨[], []⟩).res = .error e ∧
      cLookup (getForecastForLatLon noUrlUpstream (.num (.fin 1)) (.num (.fin 2)) 0
        ⟨[], []⟩).caches.points (coordKeyOf (.fin 1) (.fin 2)) = none ∧
      (getForecastForLatLon noUrlUpstream (.num (.fin 1)) (.num (.fin 2)) 0
        ⟨[], []⟩).caches.forecast = [] ∧
      (getForecastForLatLon noUrlUpstream (.num (.fin 1)) (.num (.fin 2)) 0
        ⟨[], []⟩).forecastCalls = 0 ∧
      ∀ t2 : ℤ, (getForecastForLatLon noUrlUpstream (.num (.fin 1)) (.num (.fin 2)) t2
        (getForecastForLatLon noUrlUpstream (.num (.fin 1)) (.num (.fin 2)) 0
          ⟨[], []⟩).caches).pointsCalls = 1 :=
  endpoint_failure_not_cached rfl (Or.inl rfl) (Or.inr (Or.inl rfl))

/-- C9: if a first resolve at `t1` succeeds and a second resolve runs at
`t2` within the forecast TTL window (no pre-existing cache entry expiring
inside the window), the pair issues at most one upstream forecast fetch:
the first call fetched at most once, and the second call answers the same
periods entirely from cache with zero upstream calls. -/
theorem resolve_twice_one_fetch {π : Type} {u : Upstream π} {lat lon : JSVal}
    {a b : JSNum} {t1 t2 : ℤ} {c : Caches π} {p : List π}
    (hval : validateLatLon lat lon = some (a, b))
    (hres : (getForecastForLatLon u lat lon t1 c).res = .ok p)
    (ht : t1 ≤ t2) (ht2 : t2 < t1 + TTL.forecast)
    (hfp : ∀ kv ∈ c.points, kv.2.expiresAt ≤ t1 ∨ t2 < kv.2.expiresAt)
    (hff : ∀ kv ∈ c.forecast, kv.2.expiresAt ≤ t1 ∨ t2 < kv.2.expiresAt) :
    (getForecastForLatLon u lat lon t1 c).forecastCalls ≤ 1 ∧
    getForecastForLatLon u lat lon t2
        (getForecastForLatLon u lat lon t1 c).caches =
      ⟨.ok p, (getForecastForLatLon u lat lon t1 c).caches, 0, 0⟩ := by
  obtain ⟨url, pc2, fc2, pcalls, fcalls, hps, hfs, heq⟩ :=
    resolve_decomp_ok hval hres
  obtain ⟨hurl, hpn, exp, hlook, hdisj⟩ := pointsStage_ok hps
  obtain ⟨hfn, exp2, hlook2, hdisj2⟩ := forecastStage_ok hfs
  have hexp : t2 < exp := by
    rcases hdisj with rfl | ⟨hl, hgt⟩
    · rw [TTL.points]
      rw [TTL.forecast] at ht2
      omega
    · rcases hfp _ (cLookup_mem hl) with h1 | h1
      · have h1x : exp ≤ t1 := h1
        omega
      · exact h1
  have hexp2 : t2 < exp2 := by
    rcases hdisj2 with rfl | ⟨hl, hgt⟩
    · omega
    · rcases hff _ (cLookup_mem hl) with h1 | h1
      · have h1x : exp2 ≤ t1 := h1
        omega
      · exact h1
  rw [heq]
  exact ⟨hfn, resolve_hits hval hlook hexp hurl hlook2 hexp2⟩

/-- Closed instance of C9: on empty caches the first call fetches once
and the second call one millisecond later answers from cache. -/
theorem resolve_twice_one_fetch_witness :
    (getForecastForLatLon okUpstream (.num (.fin 1)) (.num (.fin 2)) 0
      ⟨[], []⟩).forecastCalls ≤ 1 ∧
    getForecastForLatLon okUpstream (.num (.fin 1)) (.num (.fin 2)) 1
        (getForecastForLatLon okUpstream (.num (.fin 1)) (.num (.fin 2)) 0
          ⟨[], []⟩).caches =
      ⟨.ok [5], (getForecastForLatLon okUpstream (.num (.fin 1)) (.num (.fin 2)) 0
        ⟨[], []⟩).caches, 0, 0⟩ :=
  resolve_twice_one_fetch rfl rfl (by decide) (by decide)
    (by intro kv hkv; exact absurd hkv (by simp))
    (by intro kv hkv; exact absurd hkv (by simp))

/-- C1: for every item list and limit >= 1, any completed run of the
`mapWithConcurrency` worker pool yields a results array of the input's
length whose slot `i` holds the worker's result for item `i` — input
order, independent of the schedule — and the claim trace processes every
index exactly once, skipping none. -/
theorem mapWithConcurrency_ordered {α ρ : Type} (items : List α)
    (f : α → ℕ → ρ) (limit : ℕ) (s : PoolState ρ) (hlim : 1 ≤ limit)
    (hreach : PoolReach items f (initPool items limit) s) (hdone : AllDone s) :
    s.results.length = items.length ∧
    (∀ i (h : i < items.length),
      s.results.get? i = some (some (f (items.get ⟨i, h⟩) i))) ∧
    s.procs.Perm (List.range items.length) :=
  pool_correct hlim hreach hdone

/-- Closed instance of C1: a two-worker schedule that completes the
second item before the first still fills both slots in input order and
claims each index once. -/
theorem mapWithConcurrency_ordered_witness :
    wPoolFinal.results.length = wItems.length ∧
    (∀ i (h : i < wItems.length),
      wPoolFinal.results.get? i = some (some (wf (wItems.get ⟨i, h⟩) i))) ∧
    wPoolFinal.procs.Perm (List.range wItems.length) :=
  mapWithConcurrency_ordered wItems wf 2 wPoolFinal (by decide)
    (Relation.ReflTransGen.head (PoolStep.claimHit _ 0 rfl (by decide))
      (Relation.ReflTransGen.head (PoolStep.claimHit _ 1 rfl (by decide))
        (Relation.ReflTransGen.head (PoolStep.fire _ 1 1 (by decide) rfl)
          (Relation.ReflTransGen.head (PoolStep.fire _ 0 0 (by decide) rfl)
            (Relation.ReflTransGen.head (PoolStep.claimMiss _ 0 rfl (by decide))
              (Relation.ReflTransGen.head (PoolStep.claimMiss _ 1 rfl (by decide))
                Relation.ReflTransGen.refl))))))
    (by decide)

/-- C2: in any completed batch-pool run, a failing item yields exactly
the caught-error record (`forecast` null, `error` message set) in its own
slot, every slot holds its own item's worker result, and changing the
resolver's behaviour on the failing item alone cannot change any sibling
slot of a completed run. -/
theorem batch_item_failure_isolated {π : Type}
    {r q : JSVal → JSVal → Except JSError (List π)} {items : List RawLoc}
    {limit : ℕ} {s s2 : PoolState (BatchResult π)} {i : ℕ} {e : JSError}
    (hlim : 1 ≤ limit)
    (hreach : PoolReach items (fun loc _ => batchWorker r loc)
      (initPool items limit) s)
    (hdone : AllDone s)
    (hi : i < items.length)
    (hfail : r (locLat (items.get ⟨i, hi⟩)) (locLon (items.get ⟨i, hi⟩)) =
      .error e)
    (hreach2 : PoolReach items (fun loc _ => batchWorker q loc)
      (initPool items limit) s2)
    (hdone2 : AllDone s2)
    (hagree : ∀ j (hj : j < items.length), j ≠ i →
      q (locLat (items.get ⟨j, hj⟩)) (locLon (items.get ⟨j, hj⟩)) =
        r (locLat (items.get ⟨j, hj⟩)) (locLon (items.get ⟨j, hj⟩))) :
    s.results.length = items.length ∧
    s.results.get? i = some (some
      ⟨jsNullish (items.get ⟨i, hi⟩).name .null,
        if jsIsNullish (locLat (items.get ⟨i, hi⟩)) then none
          else some (jsToNumber (locLat (items.get ⟨i, hi⟩))),
        if jsIsNullish (locLon (items.get ⟨i, hi⟩)) then none
          else some (jsToNumber (locLon (items.get ⟨i, hi⟩))),
        none, some e.message⟩) ∧
    (∀ j (hj : j < items.length),
      s.results.get? j = some (some (batchWorker r (items.get ⟨j, hj⟩)))) ∧
    (∀ j (hj : j < items.length), j ≠ i →
      s2.results.get? j = s.results.get? j) := by
  obtain ⟨hlen, hslots, _⟩ := pool_correct hlim hreach hdone
  obtain ⟨hlen2, hslots2, _⟩ := pool_correct hlim hreach2 hdone2
  refine ⟨hlen, ?_, hslots, ?_⟩
  · rw [hslots i hi]
    have hw : batchWorker r (items.get ⟨i, hi⟩) =
        ⟨jsNullish (items.get ⟨i, hi⟩).name .null,
          if jsIsNullish (locLat (items.get ⟨i, hi⟩)) then none
            else some (jsToNumber (locLat (items.get ⟨i, hi⟩))),
          if jsIsNullish (locLon (items.get ⟨i, hi⟩)) then none
            else some (jsToNumber (locLon (items.get ⟨i, hi⟩))),
          none, some e.message⟩ := by
      rw [batchWorker, hfail]
    rw [hw]
  · intro j hj hne
    rw [hslots2 j hj, hslots j hj]
    have hw : batchWorker q (items.get ⟨j, hj⟩) =
        batchWorker r (items.get ⟨j, hj⟩) := by
      rw [batchWorker, batchWorker, hagree j hj hne]
    rw [hw]

/-- Closed instance of C2: in a completed two-worker run over three
items whose middle item fails, slot 1 carries the error record, slots 0
and 2 their items' successful records, and re-running with a resolver
that agrees off the failing item leaves the sibling slots unchanged. -/
theorem batch_item_failure_isolated_witness :
    wBatchFinal.results.length = wBatchItems.length ∧
    wBatchFinal.results.get? 1 =
      some (some ⟨.null, none, none, none, some "boom"⟩) ∧
    (∀ j (hj : j < wBatchItems.length),
      wBatchFinal.results.get? j =
        some (some (batchWorker wResolver (wBatchItems.get ⟨j, hj⟩)))) ∧
    (∀ j (hj : j < wBatchItems.length), j ≠ 1 →
      wBatchFinal.results.get? j = wBatchFinal.results.get? j) := by
  have ch : PoolReach wBatchItems (fun loc _ => batchWorker wResolver loc)
      (initPool wBatchItems 2) wBatchFinal :=
    Relation.ReflTransGen.head (PoolStep.claimHit _ 0 rfl (by decide))
      (Relation.ReflTransGen.head (PoolStep.claimHit _ 1 rfl (by decide))
        (Relation.ReflTransGen.head (PoolStep.fire _ 1 1 (by decide) rfl)
          (Relation.ReflTransGen.head (PoolStep.claimHit _ 1 rfl (by decide))
            (Relation.ReflTransGen.head (PoolStep.fire _ 0 0 (by decide) rfl)
              (Relation.ReflTransGen.head (PoolStep.claimMiss _ 0 rfl (by decide))
                (Relation.ReflTransGen.head (PoolStep.fire _ 1 2 (by decide) rfl)
                  (Relation.ReflTransGen.head (PoolStep.claimMiss _ 1 rfl (by decide))
                    Relation.ReflTransGen.refl)))))))
  exact batch_item_failure_isolated (r := wResolver) (q := wResolver)
    (i := 1) (e := ⟨"boom", 502⟩)
    (by decide) ch (by decide) (by decide) rfl ch (by decide)
    (fun j hj hne => rfl)

/-- C3: any route outcome for a batch of more than 50 items is the 413
rejection computed before any worker exists: whatever executor semantics
is plugged in, the response is the error, the caches are unchanged, and
zero upstream calls of either kind were made. -/
theorem weatherBatch_oversize {π : Type}
    (Run : Caches π → List RawLoc → List (BatchResult π) × Caches π × ℕ × ℕ → Prop)
    (c : Caches π) (l : List RawLoc) (out : ℕ × BatchRespBody π × Caches π × ℕ × ℕ)
    (hlen : 50 < l.length)
    (hexec : WeatherBatchExec Run c (.array l) out) :
    out = (413, .err "Too many locations. Max 50.", c, 0, 0) := by
  cases hexec with
  | short st rb hpre =>
      simp only [weatherBatchPre] at hpre
      rw [if_neg (by omega : ¬ l.length = 0), if_pos hlen] at hpre
      injection hpre with h1 h2
      subst h1
      subst h2
      rfl
  | run locs rs c2 pc fc hpre hrun =>
      simp only [weatherBatchPre] at hpre
      rw [if_neg (by omega : ¬ l.length = 0), if_pos hlen] at hpre
      exact absurd hpre (by simp)

/-- Closed instance of C3: a 51-item batch is answered 413 with caches
untouched and no upstream call, under a trivial executor semantics. -/
theorem weatherBatch_oversize_witness :
    ((413 : ℕ), BatchRespBody.err (π := ℕ) "Too many locations. Max 50.",
        (⟨[], []⟩ : Caches ℕ), (0 : ℕ), (0 : ℕ)) =
      (413, .err "Too many locations. Max 50.", (⟨[], []⟩ : Caches ℕ), 0, 0) :=
  weatherBatch_oversize (trivRun ℕ) ⟨[], []⟩ wBigList _ (by decide)
    (WeatherBatchExec.short 413 (.err "Too many locations. Max 50.") rfl)

/-- C4 counterexample: a non-array `locations` value is answered with a
successful 200 response carrying an empty results list — not an
error-classed result as the claim states. -/
theorem weatherBatch_nonArray_cex :
    weatherBatchPre ℕ .nonArray = .respond 200 (.results []) ∧
    WeatherBatchExec (trivRun ℕ) ⟨[], []⟩ .nonArray
      (200, .results [], ⟨[], []⟩, 0, 0) :=
  ⟨rfl, WeatherBatchExec.short 200 (.results []) rfl⟩

/-- C4 (amended): non-array input is coerced to an empty item list and
short-circuits before any worker is spawned, producing a successful 200
response with empty results, no resolver invocation, no cache change and
no upstream call. -/
theorem weatherBatch_nonArray {π : Type}
    (Run : Caches π → List RawLoc → List (BatchResult π) × Caches π × ℕ × ℕ → Prop)
    (c : Caches π) (out : ℕ × BatchRespBody π × Caches π × ℕ × ℕ)
    (hexec : WeatherBatchExec Run c .nonArray out) :
    out = (200, .results [], c, 0, 0) := by
  cases hexec with
  | short st rb hpre =>
      injection hpre with h1 h2
      subst h1
      subst h2
      rfl
  | run locs rs c2 pc fc hpre hrun =>
      exact absurd hpre (by simp [weatherBatchPre])

/-- Closed instance of the amended C4. -/
theorem weatherBatch_nonArray_witness :
    ((200 : ℕ), BatchRespBody.results (π := ℕ) [], (⟨[], []⟩ : Caches ℕ),
        (0 : ℕ), (0 : ℕ)) =
      (200, .results [], (⟨[], []⟩ : Caches ℕ), 0, 0) :=
  weatherBatch_nonArray (trivRun ℕ) ⟨[], []⟩ _
    (WeatherBatchExec.short 200 (.results []) rfl)

/-- C10: an empty `locations` array is answered with a successful 200
response with an empty results list, spawning no workers, reading no
cache and making no upstream call. -/
theorem weatherBatch_empty {π : Type}
    (Run : Caches π → List RawLoc → List (BatchResult π) × Caches π × ℕ × ℕ → Prop)
    (c : Caches π) (out : ℕ × BatchRespBody π × Caches π × ℕ × ℕ)
    (hexec : WeatherBatchExec Run c (.array []) out) :
    out = (200, .results [], c, 0, 0) := by
  cases hexec with
  | short st rb hpre =>
      injection hpre with h1 h2
      subst h1
      subst h2
      rfl
  | run locs rs c2 pc fc hpre hrun =>
      exact absurd hpre (by simp [weatherBatchPre])

/-- Closed instance of C10. -/
theorem weatherBatch_empty_witness :
    ((200 : ℕ), BatchRespBody.results (π := ℕ) [], (⟨[], []⟩ : Caches ℕ),
        (0 : ℕ), (0 : ℕ)) =
      (200, .results [], (⟨[], []⟩ : Caches ℕ), 0, 0) :=
  weatherBatch_empty (trivRun ℕ) ⟨[], []⟩ _
    (WeatherBatchExec.short 200 (.results []) rfl)
